import Mathlib

/-!
Verification development for the zkits-logger structured logging library.

Each definition is a shallow embedding of the corresponding Go source:
  * `src/level.go`        — log levels, validity, enablement, parsing
  * `src/logger.go`       — logger threshold level management
  * `src/internal/fields.go` — field containers and JSON-safe normalization
  * `src/multi_writer.go` — the fan-out multi writer
  * `src/file_writer.go`  — the size-rotating file writer
  * `src/log.go`          — the log handle chain and the record pipeline
  * hook bag source       — per-level hook registry and firing

Go `uint32` arithmetic is modelled on `Nat` with explicit `% 2 ^ 32` where
the source can overflow.  Fallible operations return pairs with an
`Option` error component, mirroring Go's `(value, error)` returns.
-/

namespace ZkitsLogger

/-! ## Level (src/level.go)

`type Level uint32`; the zero value is invalid.  Constants are
`iota + 1`, so Panic = 1 … Trace = 7 (severity increases toward 1). -/

abbrev Level := Nat

def PanicLevel : Level := 1

def FatalLevel : Level := 2

def ErrorLevel : Level := 3

def WarnLevel : Level := 4

def InfoLevel : Level := 5

def DebugLevel : Level := 6

def TraceLevel : Level := 7

/-- `Level.IsValid`: `level <= TraceLevel && level >= PanicLevel`. -/
def levelIsValid (level : Level) : Bool :=
  decide (level ≤ TraceLevel ∧ PanicLevel ≤ level)

/-- `Level.IsEnabled`: `l <= level && l > 0` (the receiver is the
configured threshold, `l` the incoming candidate level). -/
def levelIsEnabled (level l : Level) : Bool :=
  decide (l ≤ level ∧ 0 < l)

/-- `Level.String`: canonical lowercase name from the `allLevels`
table, `"unknown"` for unsupported levels. -/
def levelString (level : Level) : String :=
  match level with
  | 1 => "panic"
  | 2 => "fatal"
  | 3 => "error"
  | 4 => "warn"
  | 5 => "info"
  | 6 => "debug"
  | 7 => "trace"
  | _ => "unknown"

/-- The Latin-1 part of Go `unicode.IsSpace`, used by
`strings.TrimSpace`: `'\t' '\n' '\v' '\f' '\r' ' '` U+0085 U+00A0. -/
def goIsSpace (c : Char) : Bool :=
  c = ' ' ∨ c = '\t' ∨ c = '\n' ∨ c.toNat = 0xb ∨ c.toNat = 0xc ∨
    c = '\r' ∨ c.toNat = 0x85 ∨ c.toNat = 0xa0

/-- Go `strings.TrimSpace`: drop leading and trailing white space. -/
def goTrimSpace (s : String) : String :=
  ⟨((s.data.dropWhile goIsSpace).reverse.dropWhile goIsSpace).reverse⟩

/-- ASCII case folding of one character (the inputs compared against in
`ParseLevel` are all ASCII). -/
def goToLowerChar (c : Char) : Char :=
  if 'A' ≤ c ∧ c ≤ 'Z' then Char.ofNat (c.toNat + 32) else c

/-- Go `strings.ToLower` restricted to the ASCII case mapping. -/
def goToLower (s : String) : String :=
  ⟨s.data.map goToLowerChar⟩

/-- The error message of `ParseLevel`:
`fmt.Errorf("invalid log level string %q", s)` (the `%q` escaping of
special characters inside `s` is not modelled). -/
def invalidLevelMessage (s : String) : String :=
  "invalid log level string \"" ++ s ++ "\""

/-- All spellings accepted by some case of the `ParseLevel` switch,
grouped per level exactly as the `case` lists group them. -/
def isAcceptedSpelling (t : String) : Prop :=
  (t = "panic" ∨ t = "pnc") ∨
  (t = "fatal" ∨ t = "fat") ∨
  (t = "error" ∨ t = "err") ∨
  (t = "warn" ∨ t = "wan" ∨ t = "warning") ∨
  (t = "info" ∨ t = "inf" ∨ t = "echo") ∨
  (t = "debug" ∨ t = "dbg") ∨
  (t = "trace" ∨ t = "tac" ∨ t = "print")

instance (t : String) : Decidable (isAcceptedSpelling t) := by
  unfold isAcceptedSpelling; infer_instance

/-- `ParseLevel`: switch on the trimmed, lowercased input; on no match
return the zero level together with an error, as the Go pair does. -/
def parseLevel (s : String) : Level × Option String :=
  let t := goToLower (goTrimSpace s)
  if t = "panic" ∨ t = "pnc" then (PanicLevel, none)
  else if t = "fatal" ∨ t = "fat" then (FatalLevel, none)
  else if t = "error" ∨ t = "err" then (ErrorLevel, none)
  else if t = "warn" ∨ t = "wan" ∨ t = "warning" then (WarnLevel, none)
  else if t = "info" ∨ t = "inf" ∨ t = "echo" then (InfoLevel, none)
  else if t = "debug" ∨ t = "dbg" then (DebugLevel, none)
  else if t = "trace" ∨ t = "tac" ∨ t = "print" then (TraceLevel, none)
  else (0, some (invalidLevelMessage s))

/-! ## Logger threshold level (src/logger.go, src/log.go)

The core stores the threshold as a `uint32` (`core.level`), read and
written atomically.  `newCore` initializes it to `TraceLevel`. -/

/-- The observable level state of one logger core. -/
structure LoggerState where
  level : Nat
deriving DecidableEq, Repr

/-- `newCore`: `level: uint32(TraceLevel)`. -/
def newCoreState : LoggerState := { level := TraceLevel }

/-- `logger.GetLevel`: atomic load of `core.level`. -/
def getLevel (st : LoggerState) : Level := st.level

/-- `logger.SetLevel`: store the level only when `level.IsValid()`,
otherwise do nothing. -/
def setLevel (st : LoggerState) (level : Level) : LoggerState :=
  if levelIsValid level then { st with level := level } else st

/-- The logger operations that touch the threshold level:
`SetLevel`, `SetLevelString` and `ForceSetLevelString` (both of the
string variants parse first and only set on parse success). -/
inductive LoggerOp where
  | set (level : Level)
  | setString (s : String)
  | forceSetString (s : String)
deriving DecidableEq, Repr

/-- Apply one level-mutating logger operation to the core state. -/
def applyLoggerOp (st : LoggerState) : LoggerOp → LoggerState
  | .set level => setLevel st level
  | .setString s =>
      match parseLevel s with
      | (level, none) => setLevel st level
      | (_, some _) => st
  | .forceSetString s =>
      match parseLevel s with
      | (level, none) => setLevel st level
      | (_, some _) => st

/-- Run a sequence of logger operations from a fresh core. -/
def runLoggerOps (ops : List LoggerOp) : LoggerState :=
  ops.foldl applyLoggerOp newCoreState

/-! ## Field values (src/internal/fields.go)

Field values are `interface{}`; the cases the normalizer distinguishes
are error-typed values and everything else.  An error value's `Error()`
method may return a string or itself panic, and a typed-nil error can
reach `errorToString`, hence the three-way `GoError`. -/

/-- The observable behavior of one Go `error` value stored in a field. -/
inductive GoError where
  | nilErr
  | ret (s : String)
  | panics
deriving DecidableEq, Repr

/-- A field value: a string, an opaque non-error value, or an error. -/
inductive Value where
  | str (s : String)
  | int (n : Int)
  | err (e : GoError)
deriving DecidableEq, Repr

/-- `errorToString`: `""` for a nil error, the `Error()` result when it
returns, and the sentinel from the `recover()` branch when `Error()`
panics. -/
def errorToString (err : GoError) : String :=
  match err with
  | .nilErr => ""
  | .ret s => s
  | .panics => "!!PANIC(error.Error)"

/-- One Go `map[string]interface{}` as an insertion-ordered association
list with unique keys. -/
abbrev FieldsMap := List (String × Value)

/-- Go map read: `m[k]` as an option. -/
def mapGet (m : FieldsMap) (k : String) : Option Value :=
  match m with
  | [] => none
  | (k0, v0) :: rest => if k0 = k then some v0 else mapGet rest k

/-- Go map write `m[k] = v`: replace the existing entry or append. -/
def mapSet (m : FieldsMap) (k : String) (v : Value) : FieldsMap :=
  match m with
  | [] => [(k, v)]
  | (k0, v0) :: rest =>
      if k0 = k then (k, v) :: rest else (k0, v0) :: mapSet rest k v

/-- The per-value step of `StandardiseFieldsForJSONEncoder`:
`case error:` becomes `errorToString(o)`, `default:` is unchanged. -/
def standardiseValue (v : Value) : Value :=
  match v with
  | .err o => .str (errorToString o)
  | v => v

/-- `StandardiseFieldsForJSONEncoder`: rebuild the map, stringifying
error-typed values and copying all others. -/
def standardiseFieldsForJSONEncoder (src : FieldsMap) : FieldsMap :=
  match src with
  | [] => []
  | (k, v) :: rest => (k, standardiseValue v) :: standardiseFieldsForJSONEncoder rest

/-! ## The map store and the copy-on-write handle chain (src/log.go)

Go `Fields` is a reference to a shared mutable map.  To state the
independence of handles we model the heap of field maps explicitly: a
store of maps, with handles holding either `nil` (no map) or an index
into the store.  `Fields.Clone` allocates a fresh map; `r.fields[key] =
value` mutates the store at the clone's index only. -/

/-- The heap of live field maps. -/
structure Store where
  maps : List FieldsMap
deriving DecidableEq, Repr

/-- Allocate a fresh map, returning its index. -/
def Store.alloc (st : Store) (m : FieldsMap) : Store × Nat :=
  ({ maps := st.maps ++ [m] }, st.maps.length)

/-- Dereference a map pointer (out-of-store reads give the empty map;
a live handle never holds such a pointer). -/
def Store.read (st : Store) (p : Nat) : FieldsMap :=
  st.maps.getD p []

/-- `m[k] = v` through a pointer: mutate the store at index `p`. -/
def Store.writeKey (st : Store) (p : Nat) (k : String) (v : Value) : Store :=
  { maps := st.maps.set p (mapSet (st.read p) k v) }

/-- The log handle (`type log struct`): a shared-core reference plus
this node's own fields pointer, context, caller override, message
prefix and stack flag.  Context and caller are opaque here. -/
structure Log where
  core : Nat
  fields : Option Nat
  ctx : Option Nat
  caller : Option Nat
  prefixStr : String
  stack : Bool
deriving DecidableEq, Repr

/-- The field map a handle currently sees (`nil` reads as empty). -/
def fieldsOf (st : Store) (o : Log) : FieldsMap :=
  match o.fields with
  | none => []
  | some p => st.read p

/-- A handle's fields pointer, when present, points into the store. -/
def Store.validHandle (st : Store) (o : Log) : Prop :=
  ∀ p, o.fields = some p → p < st.maps.length

/-- `log.WithField(key, value)`: build a new handle sharing the core
and the node state; with no existing fields allocate a singleton map,
otherwise `Clone(1)` the map and insert into the clone. -/
def withField (st : Store) (o : Log) (key : String) (value : Value) :
    Store × Log :=
  if (fieldsOf st o).length = 0 then
    let a := st.alloc [(key, value)]
    (a.1, { o with fields := some a.2 })
  else
    let a := st.alloc (fieldsOf st o)
    (a.1.writeKey a.2 key value, { o with fields := some a.2 })

/-- The experiment of the independence claim: produce two children of
the same parent by `parent.WithField(k, v1)` and `parent.WithField(k,
v2)`, threading the store, and return the final store with both
children. -/
def childStores (st : Store) (o : Log) (k : String) (v1 v2 : Value) :
    Store × Log × Log :=
  let r1 := withField st o k v1
  let r2 := withField r1.1 o k v2
  (r2.1, r1.2, r2.2)

/-! ## Multi writer (src/multi_writer.go)

`multiWriter.Write` fans one payload out to every underlying writer,
turns a short count with a nil error into `io.ErrShortWrite`, keeps the
first error and the maximum reported count. -/

/-- An error returned from a write: `io.ErrShortWrite` or any other. -/
inductive WriteErr where
  | shortWrite
  | other (s : String)
deriving DecidableEq, Repr

/-- A payload is a byte slice. -/
abbrev Payload := List Nat

/-- One underlying writer: an identity (so invocations can be traced)
and its response `(count, error)` to a payload. -/
structure MWriter where
  id : Nat
  write : Payload → Nat × Option WriteErr

/-- The loop body of `multiWriter.Write`, returning the invoked writer
ids in order, the running maximum count, and the first error. -/
def multiWriteLoop (ws : List MWriter) (p : Payload) :
    List Nat × Nat × Option WriteErr :=
  match ws with
  | [] => ([], 0, none)
  | w :: rest =>
      let r := w.write p
      let e := if r.2 = none ∧ r.1 ≠ p.length then some WriteErr.shortWrite else r.2
      let t := multiWriteLoop rest p
      (w.id :: t.1, max r.1 t.2.1,
        match e with
        | some e0 => some e0
        | none => t.2.2)

/-- `multiWriter.Write`: with no writers, report `(len(p), nil)` without
invoking anything; otherwise run the loop. -/
def multiWriterWrite (ws : List MWriter) (p : Payload) :
    List Nat × Nat × Option WriteErr :=
  if 0 < ws.length then multiWriteLoop ws p else ([], p.length, none)

/-- The effective error one writer contributes: its own error, or
`io.ErrShortWrite` when it reports success with a short count. -/
def effectiveWriteErr (w : MWriter) (p : Payload) : Option WriteErr :=
  if (w.write p).2 = none ∧ (w.write p).1 ≠ p.length then
    some WriteErr.shortWrite
  else (w.write p).2

/-- The first `some` in a list of optional errors. -/
def firstSome : List (Option WriteErr) → Option WriteErr
  | [] => none
  | some e :: _ => some e
  | none :: rest => firstSome rest

/-! ## Rotating file writer (src/file_writer.go)

The file system is modelled as a map from paths to file sizes; error
paths of the OS calls (`Abs`, `MkdirAll`, `OpenFile`, `Stat`, `Sync`,
`Rename`) are not modelled — each call succeeds.  Sizes are `uint32`
in the writer (`w.size`), hence the `% 2 ^ 32`. -/

/-- File system state: path to current size, unique paths. -/
abbrev FS := List (String × Nat)

def fsLookup (fs : FS) (p : String) : Option Nat :=
  match fs with
  | [] => none
  | (p0, n0) :: rest => if p0 = p then some n0 else fsLookup rest p

def fsSet (fs : FS) (p : String) (n : Nat) : FS :=
  match fs with
  | [] => [(p, n)]
  | (p0, n0) :: rest =>
      if p0 = p then (p, n) :: rest else (p0, n0) :: fsSet rest p n

def fsRemove (fs : FS) (p : String) : FS :=
  match fs with
  | [] => []
  | (p0, n0) :: rest =>
      if p0 = p then rest else (p0, n0) :: fsRemove rest p

/-- `type fileWriter struct`: path, limits and the running size
counter (`uint32`). -/
structure FileWriter where
  name : String
  max : Nat
  backup : Nat
  size : Nat
deriving DecidableEq, Repr

/-- `NewFileWriter(name, max, backup)`: open the file with
`O_RDWR|O_CREATE|O_APPEND` (creating it empty when absent), and when
`max > 0` record the opened file's current size (`uint32(i.Size())`)
as the running counter.  Path resolution and directory creation are
not modelled. -/
def newFileWriter (fs : FS) (name : String) (max backup : Nat) :
    FS × FileWriter :=
  let fs1 := match fsLookup fs name with
    | none => fsSet fs name 0
    | some _ => fs
  let size := if 0 < max then (fsLookup fs1 name).getD 0 % 2 ^ 32 else 0
  (fs1, { name := name, max := max, backup := backup, size := size })

/-- The rotated backup name built in `fileWriter.swap`:
`w.name + "." + suffix` with `suffix` the formatted timestamp. -/
def backupName (name ts : String) : String :=
  name ++ "." ++ ts

/-- `fileWriter.swap`: re-check the counter under the lock, rename the
current file to `backupName`, reopen the path truncated, and zero the
counter.  The asynchronous `clearBackups` goroutine is outside this
model. -/
def swap (fs : FS) (w : FileWriter) (ts : String) : FS × FileWriter :=
  if w.size < w.max then (fs, w)
  else
    let fs1 := match fsLookup fs w.name with
      | some sz => fsSet (fsRemove fs w.name) (backupName w.name ts) sz
      | none => fs
    let fs2 := fsSet fs1 w.name 0
    (fs2, { w with size := 0 })

/-- `fileWriter.Write` for a successful write of `n` bytes: append to
the file, and when `n > 0 && max > 0`, add `n` to the counter
(`uint32` wrap) and rotate when the counter reaches the threshold. -/
def fileWriterWrite (fs : FS) (w : FileWriter) (n : Nat) (ts : String) :
    FS × FileWriter :=
  let fs1 := fsSet fs w.name ((fsLookup fs w.name).getD 0 + n)
  if 0 < n ∧ 0 < w.max then
    let w1 := { w with size := (w.size + n) % 2 ^ 32 }
    if w.max ≤ w1.size then swap fs1 w1 ts else (fs1, w1)
  else (fs1, w)

/-- The last-dot split of a file name: `(base, ext)` with `ext`
including the dot (like `filepath.Ext`), `("name", "")` when there is
no dot. -/
def splitExt (name : String) : String × String :=
  let rev := name.data.reverse
  let revExt := rev.takeWhile (fun c => c ≠ '.')
  let rest := rev.dropWhile (fun c => c ≠ '.')
  match rest with
  | [] => (name, "")
  | _ :: base => (⟨base.reverse⟩, ⟨'.' :: revExt.reverse⟩)

/-- Modelled from the spec: the backup naming pattern the spec claims,
`<basename-without-ext>-<timestamp><ext>` — the timestamp inserted
before the extension, joined with a hyphen.  Stated only to be compared
with `backupName`, which is what the code builds. -/
def specBackupName (name ts : String) : String :=
  (splitExt name).1 ++ "-" ++ ts ++ (splitExt name).2

/-! ## The record pipeline (src/log.go, hook bag source)

`log.record` drives one emission: stamp a pooled entity, format it,
fire hooks, write, release the entity, terminal action.  Injected
dependencies of the core (`nowFunc`, `internal.GetCaller`,
`internal.GetStack`, the writers' responses, the formatter, the
interceptor) are fields of the modelled core; the writes, interceptor
invocations, hook invocations, internal error reports (`EchoError`) and
terminal actions are collected into a result trace. -/

/-- A writer identity. -/
abbrev WriterId := Nat

/-- `type logEntity struct`: one log event plus its buffer.  `fields`
and `ctx` are reference fields (pointer copies of the handle's). -/
structure LogEntity where
  name : String
  time : Nat
  timeFormat : String
  level : Level
  message : String
  fields : Option Nat
  ctx : Option Nat
  caller : String
  stack : Option (List String)
  buffer : String
deriving DecidableEq, Repr

/-- One log hook: an identity (so invocations can be traced) and its
`Fire(Summary) error` behavior. -/
structure Hook where
  id : Nat
  fire : LogEntity → Option String

/-- The logger core (`type core struct`), with the injected
environment functions modelled as fields.  `hooks` is the hook bag's
level index (`map[Level][]Hook`, registration order per level). -/
structure Core where
  name : String
  level : Nat
  formatter : LogEntity → Except String String
  formatOutput : Option (LogEntity → Except String (String × Option WriterId))
  writer : WriterId
  levelWriter : List (Level × Option WriterId)
  enableHooks : Bool
  hooks : Level → List Hook
  timeFormat : String
  nowFunc : Nat
  interceptor : Option (LogEntity → WriterId → Option String)
  stackPrefixes : List String
  getStackFn : List String → List String
  getCallerFn : Nat → Bool → String
  caller : Option Nat
  callerSkip : Nat
  callerLong : Bool
  levelCaller : List (Level × Nat)
  writerErrFn : WriterId → String → Option String

/-- Go map read over the per-level caller table. -/
def lookupLevelCaller (m : List (Level × Nat)) (level : Level) : Option Nat :=
  match m with
  | [] => none
  | (l0, k0) :: rest => if l0 = level then some k0 else lookupLevelCaller rest level

/-- Go map read over the per-level writer table (a stored writer can be
nil, hence the inner option). -/
def lookupLevelWriter (m : List (Level × Option WriterId)) (level : Level) :
    Option (Option WriterId) :=
  match m with
  | [] => none
  | (l0, w0) :: rest => if l0 = level then some w0 else lookupLevelWriter rest level

/-- `log.getCaller`: resolve the caller string with the precedence
handle override, per-level core setting, global core setting, none —
accumulating the skips exactly as the source does. -/
def logGetCaller (c : Core) (o : Log) (level : Level) : String :=
  match o.caller with
  | none =>
      match lookupLevelCaller c.levelCaller level with
      | some k => c.getCallerFn (k + c.callerSkip) c.callerLong
      | none =>
          match c.caller with
          | some k => c.getCallerFn (k + c.callerSkip) c.callerLong
          | none => ""
  | some ck =>
      match lookupLevelCaller c.levelCaller level with
      | some k => c.getCallerFn (k + ck + c.callerSkip) c.callerLong
      | none =>
          match c.caller with
          | some k => c.getCallerFn (k + ck + c.callerSkip) c.callerLong
          | none => c.getCallerFn (ck + c.callerSkip) c.callerLong

/-- `core.getEntity`: pull a pooled entity and stamp name, time, time
format, level, message, context, caller and the fields pointer. -/
def getEntity (c : Core) (o : Log) (level : Level) (message caller : String) :
    LogEntity :=
  { name := c.name, time := c.nowFunc, timeFormat := c.timeFormat,
    level := level, message := message, ctx := o.ctx, caller := caller,
    fields := o.fields, stack := none, buffer := "" }

/-- `core.putEntity`: truncate or discard the buffer (both leave it
empty) and null every reference field.  `time` and `level` are value
fields the source does not reset. -/
def putEntity (o : LogEntity) : LogEntity :=
  { o with
    buffer := "", name := "", timeFormat := "", message := "",
    fields := none, ctx := none, caller := "", stack := none }

/-- The scrub obligation on a pooled entity: every field `putEntity`
resets is at its zero value. -/
def scrubbed (o : LogEntity) : Prop :=
  o.buffer = "" ∧ o.name = "" ∧ o.timeFormat = "" ∧ o.message = "" ∧
    o.fields = none ∧ o.ctx = none ∧ o.caller = "" ∧ o.stack = none

/-- The stamped entity at the start of `log.record`, message prefixed
and stack captured when the handle requested it. -/
def entityOf (c : Core) (o : Log) (level : Level) (message : String) :
    LogEntity :=
  let e := getEntity c o level (o.prefixStr ++ message) (logGetCaller c o level)
  if o.stack then { e with stack := some (c.getStackFn c.stackPrefixes) } else e

/-- The format step of `log.record`: the plain formatter appends bytes
to the buffer, the `FormatOutput` variant additionally selects a
writer. -/
def formatResult (c : Core) (e : LogEntity) :
    Except String (String × Option WriterId) :=
  match c.formatOutput with
  | none => (c.formatter e).map (fun b => (b, none))
  | some f => f e

/-- The formatted entity on format success: the returned bytes appended
to the entity's buffer. -/
def formattedEntity (c : Core) (o : Log) (level : Level) (message b : String) :
    LogEntity :=
  { entityOf c o level message with
    buffer := (entityOf c o level message).buffer ++ b }

/-- The loop of `hookBag.Fire`: invoke each hook of the list in order,
returning the ids invoked and stopping at the first error. -/
def fireHooks (hs : List Hook) (s : LogEntity) : List Nat × Option String :=
  match hs with
  | [] => ([], none)
  | h :: rest =>
      match h.fire s with
      | some e => ([h.id], some e)
      | none =>
          let t := fireHooks rest s
          (h.id :: t.1, t.2)

/-- `hookBag.Fire`: fire the hooks indexed by the record's level (the
empty-bag early returns of the source are behaviorally the base case
of the loop). -/
def hookBagFire (hooks : Level → List Hook) (s : LogEntity) :
    List Nat × Option String :=
  fireHooks (hooks s.level) s

/-- `log.getWriter`: the per-level override when the table is nonempty
and holds a non-nil writer for this level, else the default writer. -/
def getWriter (c : Core) (e : LogEntity) : WriterId :=
  if 0 < c.levelWriter.length then
    match lookupLevelWriter c.levelWriter e.level with
    | some (some w) => w
    | _ => c.writer
  else c.writer

/-- The writer `log.write` targets: the formatter-selected writer when
the `FormatOutput` variant supplied one, else `getWriter`. -/
def resolveWriter (c : Core) (e : LogEntity) (w : Option WriterId) : WriterId :=
  match w with
  | some x => x
  | none => getWriter c e

/-- `log.write`: without an interceptor write the buffer (only when
nonempty) to the resolved writer; with an interceptor hand the record
and the resolved writer to it instead.  Returns the error plus the
write and interceptor invocation traces. -/
def logWrite (c : Core) (e : LogEntity) (w : Option WriterId) :
    Option String × List (WriterId × String) × List (WriterId × String) :=
  match c.interceptor with
  | none =>
      if 0 < e.buffer.length then
        let wr := resolveWriter c e w
        (c.writerErrFn wr e.buffer, [(wr, e.buffer)], [])
      else (none, [], [])
  | some f =>
      let wr := resolveWriter c e w
      (f e wr, [], [(wr, e.buffer)])

/-- One internal error report (`internal.EchoError`), tagged by the
emission phase that produced it. -/
inductive EchoEvent where
  | formatError (loggerName msg : String)
  | hookError (loggerName msg : String)
  | writeError (loggerName msg : String)
deriving DecidableEq, Repr

/-- The observable outcome of one `log.record` call. -/
structure RecordResult where
  firedHooks : List Nat
  writes : List (WriterId × String)
  intercepted : List (WriterId × String)
  echoed : List EchoEvent
  pooled : LogEntity
  exited : Bool
  panicked : Option String

/-- `log.record`: format; on success fire hooks (errors echoed, never
blocking the write) and write (errors echoed); on format failure skip
hooks and writing and echo the format error; always release the scrubbed
entity to the pool (the deferred `putEntity`); finally the terminal
action for Fatal and Panic. -/
def record (c : Core) (o : Log) (level : Level) (message : String) :
    RecordResult :=
  let entity := entityOf c o level message
  match formatResult c entity with
  | .error e =>
      { firedHooks := [], writes := [], intercepted := [],
        echoed := [.formatError c.name e],
        pooled := putEntity entity,
        exited := decide (level < ErrorLevel ∧ level = FatalLevel),
        panicked :=
          if level < ErrorLevel ∧ level = PanicLevel then some message
          else none }
  | .ok fr =>
      let entity2 := formattedEntity c o level message fr.1
      let hr :=
        if c.enableHooks then hookBagFire c.hooks entity2 else ([], none)
      let echoedHook : List EchoEvent :=
        match hr.2 with
        | some e => [.hookError c.name e]
        | none => []
      let wr := logWrite c entity2 fr.2
      let echoedWrite : List EchoEvent :=
        match wr.1 with
        | some e => [.writeError c.name e]
        | none => []
      { firedHooks := hr.1, writes := wr.2.1, intercepted := wr.2.2,
        echoed := echoedHook ++ echoedWrite,
        pooled := putEntity entity2,
        exited := decide (level < ErrorLevel ∧ level = FatalLevel),
        panicked :=
          if level < ErrorLevel ∧ level = PanicLevel then some message
          else none }

/-! ## Concrete fixtures used to instantiate the theorems -/

/-- A writer that always fails without consuming anything. -/
def failingWriter : MWriter :=
  { id := 1, write := fun _ => (0, some (WriteErr.other "boom")) }

/-- A writer that always succeeds on the whole payload. -/
def succeedingWriter : MWriter :=
  { id := 2, write := fun p => (p.length, none) }

/-- A hook that always succeeds. -/
def hookOkA : Hook := { id := 1, fire := fun _ => none }

/-- A hook that always fails. -/
def hookFailB : Hook := { id := 2, fire := fun _ => some "hookboom" }

/-- A second hook that always succeeds (registered after the failing
one, so a firing must skip it). -/
def hookOkC : Hook := { id := 3, fire := fun _ => none }

/-- A hook bag with the three hooks above registered for `InfoLevel`. -/
def hooksFixture : Level → List Hook :=
  fun l => if l = InfoLevel then [hookOkA, hookFailB, hookOkC] else []

/-- A core whose formatter always fails. -/
def coreFormatFail : Core :=
  { name := "svc", level := TraceLevel,
    formatter := fun _ => Except.error "fmtboom", formatOutput := none,
    writer := 0, levelWriter := [], enableHooks := true,
    hooks := fun _ => [], timeFormat := "", nowFunc := 0,
    interceptor := none, stackPrefixes := [], getStackFn := fun _ => [],
    getCallerFn := fun _ _ => "", caller := none, callerSkip := 0,
    callerLong := false, levelCaller := [], writerErrFn := fun _ _ => none }

/-- A core whose formatter succeeds with one byte of output and whose
hook bag is `hooksFixture`. -/
def coreHookFail : Core :=
  { name := "svc", level := TraceLevel,
    formatter := fun _ => Except.ok "x", formatOutput := none,
    writer := 0, levelWriter := [], enableHooks := true,
    hooks := hooksFixture, timeFormat := "", nowFunc := 0,
    interceptor := none, stackPrefixes := [], getStackFn := fun _ => [],
    getCallerFn := fun _ _ => "", caller := none, callerSkip := 0,
    callerLong := false, levelCaller := [], writerErrFn := fun _ _ => none }

/-- A plain log handle with no accumulated state. -/
def plainLog : Log :=
  { core := 0, fields := none, ctx := none, caller := none,
    prefixStr := "", stack := false }

/-- A store holding one field map. -/
def storeFixture : Store := { maps := [[("a", Value.int 1)]] }

/-- A handle whose fields pointer references the store's only map. -/
def handleFixture : Log :=
  { core := 7, fields := some 0, ctx := none, caller := none,
    prefixStr := "", stack := false }

/-! ## Helper lemmas -/

theorem listGetD_append_lt {α : Type} (l l2 : List α) (d : α) (p : Nat)
    (h : p < l.length) : (l ++ l2).getD p d = l.getD p d := by
  induction l generalizing p with
  | nil => simp at h
  | cons a t ih =>
      cases p with
      | zero => rfl
      | succ q =>
          simp only [List.cons_append, List.getD_cons_succ]
          exact ih q (by simpa using h)

theorem listGetD_concat {α : Type} (l : List α) (x d : α) :
    (l ++ [x]).getD l.length d = x := by
  induction l with
  | nil => rfl
  | cons a t ih => simp

theorem listSet_concat {α : Type} (l : List α) (x y : α) :
    (l ++ [x]).set l.length y = l ++ [y] := by
  induction l with
  | nil => rfl
  | cons a t ih => simp

theorem mapGet_mapSet_self (m : FieldsMap) (k : String) (v : Value) :
    mapGet (mapSet m k v) k = some v := by
  induction m with
  | nil => simp [mapSet, mapGet]
  | cons a t ih =>
      by_cases h : a.1 = k
      · simp [mapSet, mapGet, h]
      · simp [mapSet, mapGet, h, ih]

theorem fsLookup_fsSet_self (fs : FS) (p : String) (n : Nat) :
    fsLookup (fsSet fs p n) p = some n := by
  induction fs with
  | nil => simp [fsSet, fsLookup]
  | cons a t ih =>
      by_cases h : a.1 = p
      · simp [fsSet, fsLookup, h]
      · simp [fsSet, fsLookup, h, ih]

theorem fsLookup_fsSet_ne (fs : FS) (p q : String) (n : Nat) (h : q ≠ p) :
    fsLookup (fsSet fs p n) q = fsLookup fs q := by
  have hpq : p ≠ q := fun h0 => h h0.symm
  induction fs with
  | nil => simp [fsSet, fsLookup, hpq]
  | cons a t ih =>
      by_cases h0 : a.1 = p
      · simp [fsSet, fsLookup, h0, hpq]
      · by_cases h1 : a.1 = q <;> simp [fsSet, fsLookup, h0, h1, ih, h]

theorem backupName_ne_name (name ts : String) : backupName name ts ≠ name := by
  intro h
  have hlen := congrArg String.length h
  rw [backupName, String.length_append, String.length_append,
    show ("." : String).length = 1 from rfl] at hlen
  omega

theorem validHandle_append (st : Store) (o : Log) (ext : List FieldsMap)
    (h : Store.validHandle st o) :
    Store.validHandle { maps := st.maps ++ ext } o := by
  intro p hf
  have := h p hf
  simp only [List.length_append]
  omega

theorem fieldsOf_append (st : Store) (o : Log) (ext : List FieldsMap)
    (hvalid : Store.validHandle st o) :
    fieldsOf { maps := st.maps ++ ext } o = fieldsOf st o := by
  cases hf : o.fields with
  | none => simp [fieldsOf, hf]
  | some p =>
      simp only [fieldsOf, hf, Store.read]
      exact listGetD_append_lt st.maps ext [] p (hvalid p hf)

theorem withField_empty (st : Store) (o : Log) (k : String) (v : Value)
    (hm : (fieldsOf st o).length = 0) :
    withField st o k v =
      ({ maps := st.maps ++ [[(k, v)]] },
        { o with fields := some st.maps.length }) := by
  unfold withField
  rw [if_pos hm]
  rfl

theorem withField_nonempty (st : Store) (o : Log) (k : String) (v : Value)
    (hm : ¬(fieldsOf st o).length = 0) :
    withField st o k v =
      ({ maps := st.maps ++ [mapSet (fieldsOf st o) k v] },
        { o with fields := some st.maps.length }) := by
  unfold withField
  rw [if_neg hm]
  dsimp only [Store.alloc, Store.writeKey, Store.read]
  rw [listGetD_concat, listSet_concat]

theorem scrubbed_putEntity (o : LogEntity) : scrubbed (putEntity o) := by
  simp [scrubbed, putEntity]

theorem record_pooled_scrubbed (c : Core) (o : Log) (level : Level)
    (message : String) : scrubbed (record c o level message).pooled := by
  simp only [record]
  cases formatResult c (entityOf c o level message) with
  | error e => exact scrubbed_putEntity _
  | ok fr => exact scrubbed_putEntity _

theorem fireHooks_all_none (hs : List Hook) (s : LogEntity)
    (h : ∀ h0 ∈ hs, h0.fire s = none) :
    fireHooks hs s = (hs.map Hook.id, none) := by
  induction hs with
  | nil => rfl
  | cons h0 t ih =>
      have hh := h h0 (List.mem_cons_self h0 t)
      simp [fireHooks, hh, ih fun x hx => h x (List.mem_cons_of_mem h0 hx)]

theorem fireHooks_first_error (pre post : List Hook) (h : Hook)
    (s : LogEntity) (e : String)
    (hpre : ∀ h0 ∈ pre, h0.fire s = none) (herr : h.fire s = some e) :
    fireHooks (pre ++ h :: post) s = (pre.map Hook.id ++ [h.id], some e) := by
  induction pre with
  | nil => simp [fireHooks, herr]
  | cons p t ih =>
      have hp := hpre p (List.mem_cons_self p t)
      simp [fireHooks, hp,
        ih fun x hx => hpre x (List.mem_cons_of_mem p hx)]

theorem multiWriteLoop_spec (ws : List MWriter) (p : Payload) :
    multiWriteLoop ws p =
      (ws.map MWriter.id,
        (ws.map fun w => (w.write p).1).foldr max 0,
        firstSome (ws.map fun w => effectiveWriteErr w p)) := by
  induction ws with
  | nil => rfl
  | cons w rest ih =>
      by_cases hc : (w.write p).2 = none ∧ (w.write p).1 ≠ p.length
      · simp [multiWriteLoop, ih, effectiveWriteErr, hc.1, hc.2, firstSome]
      · cases hw : (w.write p).2 with
        | none =>
            have hlen : (w.write p).1 = p.length := by
              by_contra hne
              exact hc ⟨hw, hne⟩
            simp [multiWriteLoop, ih, effectiveWriteErr, hw, hlen, firstSome]
        | some e0 =>
            simp [multiWriteLoop, ih, effectiveWriteErr, hw, firstSome]

theorem standardise_mapGet (src : FieldsMap) (k : String) :
    mapGet (standardiseFieldsForJSONEncoder src) k =
      (mapGet src k).map standardiseValue := by
  induction src with
  | nil => rfl
  | cons a t ih =>
      by_cases h : a.1 = k <;>
        simp [standardiseFieldsForJSONEncoder, mapGet, h, ih]

/-! ## Claim theorems -/

/-- C5: the JSON-safe field normalizer rebuilds the map pointwise,
stringifying every error-typed value through `errorToString` and
leaving every non-error value untouched; and a panicking `Error()` is
caught and replaced by the sentinel string `"!!PANIC(error.Error)"`
(the normalizer is total — a malformed value never aborts it). -/
theorem standardiseFields_spec (src : FieldsMap) (k : String) :
    mapGet (standardiseFieldsForJSONEncoder src) k =
      (mapGet src k).map standardiseValue
    ∧ (∀ o, standardiseValue (Value.err o) = Value.str (errorToString o))
    ∧ (∀ s, standardiseValue (Value.str s) = Value.str s)
    ∧ (∀ n, standardiseValue (Value.int n) = Value.int n)
    ∧ (∀ s, errorToString (GoError.ret s) = s)
    ∧ errorToString GoError.panics = "!!PANIC(error.Error)" :=
  ⟨standardise_mapGet src k, fun _ => rfl, fun _ => rfl, fun _ => rfl,
    fun _ => rfl, rfl⟩

/-- C6: with zero underlying writers the multi writer reports
`(len(p), nil)` without invoking anything; with a nonempty writer list
it invokes every underlying writer (in order, even after failures),
reports the maximum byte count any single writer returned, and returns
the first error encountered, a short write counting as an error. -/
theorem multiWriterWrite_spec (ws : List MWriter) (p : Payload)
    (hne : ws ≠ []) :
    multiWriterWrite [] p = ([], p.length, none)
    ∧ (multiWriterWrite ws p).1 = ws.map MWriter.id
    ∧ (multiWriterWrite ws p).2.1 =
        (ws.map fun w => (w.write p).1).foldr max 0
    ∧ (multiWriterWrite ws p).2.2 =
        firstSome (ws.map fun w => effectiveWriteErr w p) := by
  have hpos : 0 < ws.length := List.length_pos.mpr hne
  have hrun : multiWriterWrite ws p = multiWriteLoop ws p := by
    simp [multiWriterWrite, hpos]
  refine ⟨by simp [multiWriterWrite], ?_, ?_, ?_⟩ <;>
    simp [hrun, multiWriteLoop_spec]

/-- C7: `ParseLevel ∘ String` is the identity on every valid level,
and on any string whose trimmed lowercase form matches no accepted
spelling `ParseLevel` returns the zero level together with a
descriptive error, the zero level being invalid. -/
theorem parseLevel_roundtrip_reject (l : Level) (s : String)
    (hl : levelIsValid l = true)
    (hs : ¬ isAcceptedSpelling (goToLower (goTrimSpace s))) :
    parseLevel (levelString l) = (l, none)
    ∧ parseLevel s = (0, some (invalidLevelMessage s))
    ∧ levelIsValid (parseLevel s).1 = false := by
  have hps : parseLevel s = (0, some (invalidLevelMessage s)) := by
    unfold isAcceptedSpelling at hs
    simp only [parseLevel]
    split_ifs with h1 h2 h3 h4 h5 h6 h7
    · exact absurd (Or.inl h1) hs
    · exact absurd (Or.inr (Or.inl h2)) hs
    · exact absurd (Or.inr (Or.inr (Or.inl h3))) hs
    · exact absurd (Or.inr (Or.inr (Or.inr (Or.inl h4)))) hs
    · exact absurd (Or.inr (Or.inr (Or.inr (Or.inr (Or.inl h5))))) hs
    · exact absurd (Or.inr (Or.inr (Or.inr (Or.inr (Or.inr (Or.inl h6)))))) hs
    · exact absurd (Or.inr (Or.inr (Or.inr (Or.inr (Or.inr (Or.inr h7)))))) hs
    · rfl
  have h3 : levelIsValid (parseLevel s).1 = false := by
    rw [hps]
    show levelIsValid 0 = false
    decide
  refine ⟨?_, hps, h3⟩
  simp only [levelIsValid, TraceLevel, PanicLevel, decide_eq_true_eq] at hl
  obtain ⟨h1, h2⟩ := hl
  interval_cases l <;> decide

/-- C7 witness: the round trip at `InfoLevel` and the rejection of the
unaccepted string `"bogus"`. -/
theorem parseLevel_roundtrip_reject_witness :
    levelIsValid InfoLevel = true
    ∧ ¬ isAcceptedSpelling (goToLower (goTrimSpace "bogus"))
    ∧ (parseLevel (levelString InfoLevel) = (InfoLevel, none)
      ∧ parseLevel "bogus" = (0, some (invalidLevelMessage "bogus"))
      ∧ levelIsValid (parseLevel "bogus").1 = false) :=
  ⟨by decide, by decide,
    parseLevel_roundtrip_reject InfoLevel "bogus" (by decide) (by decide)⟩

/-- C8: level enablement is monotone in the threshold — any level
enabled under a threshold stays enabled under every at-least-as-verbose
(numerically larger) threshold. -/
theorem levelIsEnabled_monotone (T T' l : Level) (hT : T ≤ T')
    (h : levelIsEnabled T l = true) : levelIsEnabled T' l = true := by
  simp only [levelIsEnabled, decide_eq_true_eq] at h ⊢
  exact ⟨h.1.trans hT, h.2⟩

/-- C8 witness: Error (3) is enabled under threshold Info (5) and
therefore under the more verbose threshold Trace (7). -/
theorem levelIsEnabled_monotone_witness :
    InfoLevel ≤ TraceLevel
    ∧ levelIsEnabled InfoLevel ErrorLevel = true
    ∧ levelIsEnabled TraceLevel ErrorLevel = true :=
  ⟨by decide, by decide,
    levelIsEnabled_monotone InfoLevel TraceLevel ErrorLevel
      (by decide) (by decide)⟩

theorem foldl_applyLoggerOp_valid (ops : List LoggerOp) (st : LoggerState)
    (h : levelIsValid st.level = true) :
    levelIsValid (ops.foldl applyLoggerOp st).level = true := by
  induction ops generalizing st with
  | nil => exact h
  | cons op t ih =>
      refine ih _ ?_
      cases op with
      | set lv =>
          simp only [applyLoggerOp, setLevel]
          split_ifs with hv
          · exact hv
          · exact h
      | setString s =>
          rcases hp : parseLevel s with ⟨lv, e⟩
          cases e with
          | none =>
              simp only [applyLoggerOp, hp, setLevel]
              split_ifs with hv
              · exact hv
              · exact h
          | some msg => simpa [applyLoggerOp, hp] using h
      | forceSetString s =>
          rcases hp : parseLevel s with ⟨lv, e⟩
          cases e with
          | none =>
              simp only [applyLoggerOp, hp, setLevel]
              split_ifs with hv
              · exact hv
              · exact h
          | some msg => simpa [applyLoggerOp, hp] using h

/-- C10: a fresh core's threshold is `TraceLevel`; `SetLevel` with an
invalid level leaves the state unchanged; and after any sequence of
level-mutating logger operations `GetLevel` is one of the seven valid
levels. -/
theorem loggerLevel_always_valid :
    getLevel newCoreState = TraceLevel
    ∧ (∀ (st : LoggerState) (lv : Level),
        levelIsValid lv = false → setLevel st lv = st)
    ∧ ∀ ops : List LoggerOp,
        getLevel (runLoggerOps ops) ∈
          [PanicLevel, FatalLevel, ErrorLevel, WarnLevel, InfoLevel,
            DebugLevel, TraceLevel] := by
  refine ⟨rfl, ?_, ?_⟩
  · intro st lv hv
    simp [setLevel, hv]
  · intro ops
    have h := foldl_applyLoggerOp_valid ops newCoreState (by decide)
    simp only [levelIsValid, TraceLevel, PanicLevel, decide_eq_true_eq] at h
    obtain ⟨h1, h2⟩ := h
    have hmem : ∀ x : Nat, 1 ≤ x → x ≤ 7 →
        x ∈ [PanicLevel, FatalLevel, ErrorLevel, WarnLevel, InfoLevel,
          DebugLevel, TraceLevel] := by
      intro x hx1 hx2
      interval_cases x <;> decide
    exact hmem _ h2 h1

/-- C10 witness: setting the invalid level 0 changes nothing, and a
concrete operation sequence ends on a valid level. -/
theorem loggerLevel_always_valid_witness :
    levelIsValid 0 = false
    ∧ setLevel newCoreState 0 = newCoreState
    ∧ getLevel (runLoggerOps
        [LoggerOp.set 0, LoggerOp.setString "junk", LoggerOp.set FatalLevel]) ∈
        [PanicLevel, FatalLevel, ErrorLevel, WarnLevel, InfoLevel,
          DebugLevel, TraceLevel] :=
  ⟨by decide, loggerLevel_always_valid.2.1 newCoreState 0 (by decide),
    loggerLevel_always_valid.2.2 _⟩

/-- C6 witness: a failing and a succeeding writer over a three-byte
payload — all writers invoked, count 3, first error returned. -/
theorem multiWriterWrite_spec_witness :
    multiWriterWrite [] [7, 8, 9] = ([], 3, none)
    ∧ (multiWriterWrite [failingWriter, succeedingWriter] [7, 8, 9]).1 =
        [failingWriter, succeedingWriter].map MWriter.id
    ∧ (multiWriterWrite [failingWriter, succeedingWriter] [7, 8, 9]).2.1 =
        ([failingWriter, succeedingWriter].map
          fun w => (w.write [7, 8, 9]).1).foldr max 0
    ∧ (multiWriterWrite [failingWriter, succeedingWriter] [7, 8, 9]).2.2 =
        firstSome ([failingWriter, succeedingWriter].map
          fun w => effectiveWriteErr w [7, 8, 9]) :=
  multiWriterWrite_spec [failingWriter, succeedingWriter] [7, 8, 9] (by simp)

/-- C3 counterexample: constructing the file writer on a path whose
existing file (size 10) already exceeds the max size (5) performs no
rotation — the file system afterwards still holds exactly the original
file at its full size, so no timestamp-suffixed backup was created and
the path was not reopened fresh and empty. -/
theorem newFileWriter_no_construction_rotation :
    (newFileWriter [("app.log", 10)] "app.log" 5 2).1 = [("app.log", 10)]
    ∧ (newFileWriter [("app.log", 10)] "app.log" 5 2).2.size = 10 := by
  constructor <;> rfl

/-- C3 (amended): construction on a pre-existing file of size `s ≥ M`
does not rotate; it opens the file for append, leaves the file system
unchanged and records `s` as the running counter — so the first
subsequent successful write of `n > 0` bytes triggers the rotation,
renaming the file to its timestamp-suffixed backup and reopening the
path fresh and empty. -/
theorem newFileWriter_defers_rotation_to_first_write
    (fs : FS) (name ts : String) (max backup s n : Nat)
    (hfile : fsLookup fs name = some s) (hmax : 0 < max) (hsM : max ≤ s)
    (hs32 : s < 2 ^ 32) (hn : 0 < n) (hn32 : s + n < 2 ^ 32) :
    (newFileWriter fs name max backup).1 = fs
    ∧ (newFileWriter fs name max backup).2.size = s
    ∧ fsLookup (fileWriterWrite fs (newFileWriter fs name max backup).2
        n ts).1 (backupName name ts) = some (s + n)
    ∧ fsLookup (fileWriterWrite fs (newFileWriter fs name max backup).2
        n ts).1 name = some 0
    ∧ (fileWriterWrite fs (newFileWriter fs name max backup).2 n ts).2.size
        = 0 := by
  have hs32n : s < 4294967296 := by omega
  have hn32n : s + n < 4294967296 := by omega
  have hc1 : max ≤ s + n := by omega
  have hc2 : ¬s + n < max := by omega
  have hw : newFileWriter fs name max backup =
      (fs, { name := name, max := max, backup := backup, size := s }) := by
    simp [newFileWriter, hfile, hmax, Nat.mod_eq_of_lt hs32n]
  have hstep : fileWriterWrite fs
      { name := name, max := max, backup := backup, size := s } n ts =
      (fsSet (fsSet (fsRemove (fsSet fs name (s + n)) name)
        (backupName name ts) (s + n)) name 0,
       { name := name, max := max, backup := backup, size := 0 }) := by
    simp [fileWriterWrite, swap, hfile, hn, hmax, hc1, hc2,
      Nat.mod_eq_of_lt hn32n, fsLookup_fsSet_self]
  refine ⟨by rw [hw], by rw [hw], ?_, ?_, ?_⟩ <;> rw [show
    (newFileWriter fs name max backup).2 =
      { name := name, max := max, backup := backup, size := s } by rw [hw],
    hstep]
  · rw [fsLookup_fsSet_ne _ _ _ _ (backupName_ne_name name ts),
      fsLookup_fsSet_self]
  · rw [fsLookup_fsSet_self]

/-- C3 (amended) witness: the concrete oversized file from the
counterexample is left in place by construction and rotated by the
first write. -/
theorem newFileWriter_defers_rotation_witness :
    fsLookup [("app.log", 10)] "app.log" = some 10
    ∧ ((newFileWriter [("app.log", 10)] "app.log" 5 2).1 = [("app.log", 10)]
      ∧ (newFileWriter [("app.log", 10)] "app.log" 5 2).2.size = 10
      ∧ fsLookup (fileWriterWrite [("app.log", 10)]
          (newFileWriter [("app.log", 10)] "app.log" 5 2).2 3 "TS").1
          (backupName "app.log" "TS") = some 13
      ∧ fsLookup (fileWriterWrite [("app.log", 10)]
          (newFileWriter [("app.log", 10)] "app.log" 5 2).2 3 "TS").1
          "app.log" = some 0
      ∧ (fileWriterWrite [("app.log", 10)]
          (newFileWriter [("app.log", 10)] "app.log" 5 2).2 3 "TS").2.size
          = 0) :=
  ⟨rfl, newFileWriter_defers_rotation_to_first_write [("app.log", 10)]
    "app.log" "TS" 5 2 10 3 rfl (by decide) (by decide) (by decide)
    (by decide) (by decide)⟩

/-- C4 counterexample: rotating `app.log` appends the timestamp after
the full file name joined with a dot (`app.log.<ts>`); the name the
claim prescribes, `app-<ts>.log` (timestamp inserted before the
extension with a hyphen), is not created. -/
theorem swap_backup_name_counterexample :
    (swap [("app.log", 10)]
      { name := "app.log", max := 5, backup := 0, size := 10 }
      "20060102150405.000000000").1 =
      [("app.log.20060102150405.000000000", 10), ("app.log", 0)]
    ∧ specBackupName "app.log" "20060102150405.000000000" =
        "app-20060102150405.000000000.log"
    ∧ fsLookup (swap [("app.log", 10)]
        { name := "app.log", max := 5, backup := 0, size := 10 }
        "20060102150405.000000000").1
        (specBackupName "app.log" "20060102150405.000000000") = none
    ∧ backupName "app.log" "20060102150405.000000000" ≠
        specBackupName "app.log" "20060102150405.000000000" := by
  refine ⟨by decide, by decide, by decide, by decide⟩

/-- C4 (amended): every rotation renames the current file to
`<fullname>.<timestamp>` — the timestamp appended after the complete
primary file name (extension included), joined with a dot, in the same
directory — and reopens the primary path fresh and empty. -/
theorem swap_renames_to_dotted_timestamp (fs : FS) (w : FileWriter)
    (ts : String) (sz : Nat) (hguard : w.max ≤ w.size)
    (hfile : fsLookup fs w.name = some sz) :
    fsLookup (swap fs w ts).1 (backupName w.name ts) = some sz
    ∧ fsLookup (swap fs w ts).1 w.name = some 0
    ∧ (swap fs w ts).2.size = 0 := by
  simp only [swap]
  rw [if_neg (by omega : ¬w.size < w.max), hfile]
  exact ⟨by simp [fsLookup_fsSet_self,
      fsLookup_fsSet_ne _ _ _ _ (backupName_ne_name w.name ts)],
    by simp [fsLookup_fsSet_self], rfl⟩

/-- C4 (amended) witness: the concrete rotation from the
counterexample produces the dot-joined backup. -/
theorem swap_renames_to_dotted_timestamp_witness :
    (5 : Nat) ≤ 10
    ∧ fsLookup [("app.log", 10)] "app.log" = some 10
    ∧ (fsLookup (swap [("app.log", 10)]
        { name := "app.log", max := 5, backup := 0, size := 10 } "TS").1
        (backupName "app.log" "TS") = some 10
      ∧ fsLookup (swap [("app.log", 10)]
          { name := "app.log", max := 5, backup := 0, size := 10 } "TS").1
          "app.log" = some 0
      ∧ (swap [("app.log", 10)]
          { name := "app.log", max := 5, backup := 0, size := 10 } "TS").2.size
          = 0) :=
  ⟨by decide, rfl, swap_renames_to_dotted_timestamp [("app.log", 10)]
    { name := "app.log", max := 5, backup := 0, size := 10 } "TS" 10
    (by decide) rfl⟩

/-- C9: two handles produced by `parent.WithField(k, v1)` and
`parent.WithField(k, v2)` are independent — in the final store the
first sees `v1` (and not `v2`) for `k`, the second sees `v2` (and not
`v1`) — the parent's own field map is unchanged by both calls, and both
children share the parent's core. -/
theorem withField_independent (st : Store) (o : Log) (k : String)
    (v1 v2 : Value) (hv : v1 ≠ v2) (hvalid : Store.validHandle st o) :
    mapGet (fieldsOf (childStores st o k v1 v2).1
      (childStores st o k v1 v2).2.1) k = some v1
    ∧ mapGet (fieldsOf (childStores st o k v1 v2).1
        (childStores st o k v1 v2).2.1) k ≠ some v2
    ∧ mapGet (fieldsOf (childStores st o k v1 v2).1
        (childStores st o k v1 v2).2.2) k = some v2
    ∧ mapGet (fieldsOf (childStores st o k v1 v2).1
        (childStores st o k v1 v2).2.2) k ≠ some v1
    ∧ fieldsOf (childStores st o k v1 v2).1 o = fieldsOf st o
    ∧ (childStores st o k v1 v2).2.1.core = o.core
    ∧ (childStores st o k v1 v2).2.2.core = o.core := by
  by_cases hm : (fieldsOf st o).length = 0
  · have e1 := withField_empty st o k v1 hm
    have hfo1 : fieldsOf { maps := st.maps ++ [[(k, v1)]] } o =
        fieldsOf st o := fieldsOf_append st o _ hvalid
    have e2 := withField_empty { maps := st.maps ++ [[(k, v1)]] } o k v2
      (by rw [hfo1]; exact hm)
    have hc : childStores st o k v1 v2 =
        ({ maps := (st.maps ++ [[(k, v1)]]) ++ [[(k, v2)]] },
          { o with fields := some st.maps.length },
          { o with fields := some (st.maps ++ [[(k, v1)]]).length }) := by
      dsimp only [childStores]
      rw [e1]
      dsimp only []
      rw [e2]
    have g1 : mapGet (fieldsOf (childStores st o k v1 v2).1
        (childStores st o k v1 v2).2.1) k = some v1 := by
      rw [hc]
      show mapGet (((st.maps ++ [[(k, v1)]]) ++ [[(k, v2)]]).getD
        st.maps.length []) k = some v1
      rw [listGetD_append_lt _ _ _ _ (by simp), listGetD_concat]
      simp [mapGet]
    have g2 : mapGet (fieldsOf (childStores st o k v1 v2).1
        (childStores st o k v1 v2).2.2) k = some v2 := by
      rw [hc]
      show mapGet (((st.maps ++ [[(k, v1)]]) ++ [[(k, v2)]]).getD
        (st.maps ++ [[(k, v1)]]).length []) k = some v2
      rw [listGetD_concat]
      simp [mapGet]
    refine ⟨g1, by rw [g1]; simp [hv], g2, by rw [g2]; simp [Ne.symm hv],
      ?_, by rw [hc], by rw [hc]⟩
    rw [hc]
    exact (fieldsOf_append { maps := st.maps ++ [[(k, v1)]] } o [[(k, v2)]]
      (validHandle_append st o [[(k, v1)]] hvalid)).trans
      (fieldsOf_append st o [[(k, v1)]] hvalid)
  · have e1 := withField_nonempty st o k v1 hm
    have hfo1 : fieldsOf { maps := st.maps ++ [mapSet (fieldsOf st o) k v1] }
        o = fieldsOf st o := fieldsOf_append st o _ hvalid
    have e2' := withField_nonempty
      { maps := st.maps ++ [mapSet (fieldsOf st o) k v1] } o k v2
      (by rw [hfo1]; exact hm)
    rw [hfo1] at e2'
    have hc : childStores st o k v1 v2 =
        ({ maps := (st.maps ++ [mapSet (fieldsOf st o) k v1]) ++
            [mapSet (fieldsOf st o) k v2] },
          { o with fields := some st.maps.length },
          { o with fields := some (st.maps ++ [mapSet (fieldsOf st o) k v1]).length }) := by
      dsimp only [childStores]
      rw [e1]
      dsimp only []
      rw [e2']
    have g1 : mapGet (fieldsOf (childStores st o k v1 v2).1
        (childStores st o k v1 v2).2.1) k = some v1 := by
      rw [hc]
      show mapGet (((st.maps ++ [mapSet (fieldsOf st o) k v1]) ++
        [mapSet (fieldsOf st o) k v2]).getD st.maps.length []) k = some v1
      rw [listGetD_append_lt _ _ _ _ (by simp), listGetD_concat,
        mapGet_mapSet_self]
    have g2 : mapGet (fieldsOf (childStores st o k v1 v2).1
        (childStores st o k v1 v2).2.2) k = some v2 := by
      rw [hc]
      show mapGet (((st.maps ++ [mapSet (fieldsOf st o) k v1]) ++
        [mapSet (fieldsOf st o) k v2]).getD
        (st.maps ++ [mapSet (fieldsOf st o) k v1]).length []) k = some v2
      rw [listGetD_concat, mapGet_mapSet_self]
    refine ⟨g1, by rw [g1]; simp [hv], g2, by rw [g2]; simp [Ne.symm hv],
      ?_, by rw [hc], by rw [hc]⟩
    rw [hc]
    exact (fieldsOf_append { maps := st.maps ++ [mapSet (fieldsOf st o) k v1] }
      o [mapSet (fieldsOf st o) k v2]
      (validHandle_append st o [mapSet (fieldsOf st o) k v1] hvalid)).trans
      (fieldsOf_append st o [mapSet (fieldsOf st o) k v1] hvalid)

/-- C9 witness: a concrete parent with one existing field, extended
with `k := 10` and `k := 20`. -/
theorem withField_independent_witness :
    Value.int 10 ≠ Value.int 20
    ∧ Store.validHandle storeFixture handleFixture
    ∧ (mapGet (fieldsOf
        (childStores storeFixture handleFixture "k" (Value.int 10)
          (Value.int 20)).1
        (childStores storeFixture handleFixture "k" (Value.int 10)
          (Value.int 20)).2.1) "k" = some (Value.int 10)
      ∧ mapGet (fieldsOf
          (childStores storeFixture handleFixture "k" (Value.int 10)
            (Value.int 20)).1
          (childStores storeFixture handleFixture "k" (Value.int 10)
            (Value.int 20)).2.1) "k" ≠ some (Value.int 20)
      ∧ mapGet (fieldsOf
          (childStores storeFixture handleFixture "k" (Value.int 10)
            (Value.int 20)).1
          (childStores storeFixture handleFixture "k" (Value.int 10)
            (Value.int 20)).2.2) "k" = some (Value.int 20)
      ∧ mapGet (fieldsOf
          (childStores storeFixture handleFixture "k" (Value.int 10)
            (Value.int 20)).1
          (childStores storeFixture handleFixture "k" (Value.int 10)
            (Value.int 20)).2.2) "k" ≠ some (Value.int 10)
      ∧ fieldsOf (childStores storeFixture handleFixture "k" (Value.int 10)
          (Value.int 20)).1 handleFixture = fieldsOf storeFixture handleFixture
      ∧ (childStores storeFixture handleFixture "k" (Value.int 10)
          (Value.int 20)).2.1.core = handleFixture.core
      ∧ (childStores storeFixture handleFixture "k" (Value.int 10)
          (Value.int 20)).2.2.core = handleFixture.core) := by
  have hval : Store.validHandle storeFixture handleFixture := by
    intro p hp
    simp only [handleFixture, Option.some.injEq] at hp
    subst hp
    decide
  exact ⟨by decide, hval,
    withField_independent storeFixture handleFixture "k" (Value.int 10)
      (Value.int 20) (by decide) hval⟩

/-- C1: when the format step fails, no hook is fired, nothing is
written (neither directly nor through the interceptor), the format
error is the single internal report, and the entity is nevertheless
scrubbed and pooled — the scrubbed pool release happens on every
emission, whichever branch was taken. -/
theorem record_format_failure (c : Core) (o : Log) (level : Level)
    (message e : String)
    (hf : formatResult c (entityOf c o level message) = Except.error e) :
    (record c o level message).firedHooks = []
    ∧ (record c o level message).writes = []
    ∧ (record c o level message).intercepted = []
    ∧ (record c o level message).echoed = [EchoEvent.formatError c.name e]
    ∧ scrubbed (record c o level message).pooled
    ∧ ∀ (c2 : Core) (o2 : Log) (lv2 : Level) (m2 : String),
        scrubbed (record c2 o2 lv2 m2).pooled := by
  have hrec : record c o level message =
      { firedHooks := [], writes := [], intercepted := [],
        echoed := [EchoEvent.formatError c.name e],
        pooled := putEntity (entityOf c o level message),
        exited := decide (level < ErrorLevel ∧ level = FatalLevel),
        panicked :=
          if level < ErrorLevel ∧ level = PanicLevel then some message
          else none } := by
    simp only [record, hf]
  rw [hrec]
  exact ⟨rfl, rfl, rfl, rfl, scrubbed_putEntity _,
    fun c2 o2 lv2 m2 => record_pooled_scrubbed c2 o2 lv2 m2⟩

/-- C1 witness: a concrete core whose formatter always fails. -/
theorem record_format_failure_witness :
    formatResult coreFormatFail (entityOf coreFormatFail plainLog InfoLevel
      "m") = Except.error "fmtboom"
    ∧ ((record coreFormatFail plainLog InfoLevel "m").firedHooks = []
      ∧ (record coreFormatFail plainLog InfoLevel "m").writes = []
      ∧ (record coreFormatFail plainLog InfoLevel "m").intercepted = []
      ∧ (record coreFormatFail plainLog InfoLevel "m").echoed =
          [EchoEvent.formatError coreFormatFail.name "fmtboom"]
      ∧ scrubbed (record coreFormatFail plainLog InfoLevel "m").pooled
      ∧ ∀ (c2 : Core) (o2 : Log) (lv2 : Level) (m2 : String),
          scrubbed (record c2 o2 lv2 m2).pooled) :=
  ⟨rfl, record_format_failure coreFormatFail plainLog InfoLevel "m"
    "fmtboom" rfl⟩

/-- C2: the hook bag fires the hooks registered for the record's level
in registration order and stops at the first error, skipping the rest
of that firing; and when the firing errors during an emission, the
error is only reported internally while the formatted record is still
written to the resolved writer. -/
theorem hookFire_first_error_write_still_occurs (c : Core) (o : Log)
    (level : Level) (message eH : String) (s : LogEntity)
    (pre post : List Hook) (h : Hook) (hooks : Level → List Hook) :
    (hooks s.level = pre ++ h :: post →
      (∀ h0 ∈ pre, h0.fire s = none) → h.fire s = some eH →
      hookBagFire hooks s = (pre.map Hook.id ++ [h.id], some eH))
    ∧ ((∀ h0 ∈ pre, h0.fire s = none) →
      fireHooks pre s = (pre.map Hook.id, none))
    ∧ (c.enableHooks = true → c.interceptor = none →
      ∀ b w, formatResult c (entityOf c o level message) = Except.ok (b, w) →
      0 < (formattedEntity c o level message b).buffer.length →
      (hookBagFire c.hooks (formattedEntity c o level message b)).2 =
        some eH →
      (record c o level message).writes =
        [(resolveWriter c (formattedEntity c o level message b) w,
          (formattedEntity c o level message b).buffer)]
      ∧ EchoEvent.hookError c.name eH ∈ (record c o level message).echoed) := by
  refine ⟨?_, ?_, ?_⟩
  · intro hbag hpre herr
    unfold hookBagFire
    rw [hbag]
    exact fireHooks_first_error pre post h s eH hpre herr
  · intro hpre
    exact fireHooks_all_none pre s hpre
  · intro hen hint b w hf hlen hhook
    have hlw : logWrite c (formattedEntity c o level message b) w =
        (c.writerErrFn (resolveWriter c (formattedEntity c o level message b)
          w) (formattedEntity c o level message b).buffer,
         [(resolveWriter c (formattedEntity c o level message b) w,
           (formattedEntity c o level message b).buffer)], []) := by
      simp only [logWrite, hint]
      rw [if_pos hlen]
    constructor
    · simp only [record, hf]
      rw [hlw]
    · simp only [record, hf, hen, if_true, hhook]
      simp

/-- C2 witness: three hooks registered for `InfoLevel`, the second of
which fails — the first two fire, the third is skipped, the error is
echoed and the one-byte record is still written to writer 0. -/
theorem hookFire_first_error_witness :
    hookBagFire hooksFixture
      (formattedEntity coreHookFail plainLog InfoLevel "m" "x") =
      ([1, 2], some "hookboom")
    ∧ fireHooks [hookOkA]
        (formattedEntity coreHookFail plainLog InfoLevel "m" "x") =
        ([1], none)
    ∧ (record coreHookFail plainLog InfoLevel "m").writes =
        [(0, (formattedEntity coreHookFail plainLog InfoLevel "m" "x").buffer)]
    ∧ EchoEvent.hookError "svc" "hookboom" ∈
        (record coreHookFail plainLog InfoLevel "m").echoed := by
  have hpre : ∀ h0 ∈ [hookOkA],
      h0.fire (formattedEntity coreHookFail plainLog InfoLevel "m" "x") =
        none := by
    intro h0 hh
    rw [List.mem_singleton] at hh
    subst hh
    rfl
  have t := hookFire_first_error_write_still_occurs coreHookFail plainLog
    InfoLevel "m" "hookboom"
    (formattedEntity coreHookFail plainLog InfoLevel "m" "x")
    [hookOkA] [hookOkC] hookFailB hooksFixture
  refine ⟨t.1 rfl hpre rfl, t.2.1 hpre, ?_, ?_⟩
  · exact (t.2.2 rfl rfl "x" none rfl (by decide) rfl).1
  · exact (t.2.2 rfl rfl "x" none rfl (by decide) rfl).2

end ZkitsLogger
